import Mathlib

/-!
Shallow embedding of the fixed-capacity buffer-pool allocator
(`src/buffer.h` / `src/buffer.c`).

Modelling conventions:
* A C pointer is an `Option Nat`: `none` is `NULL`, `some a` is the address
  `a`.  Pointer arithmetic `&block[i * size]` becomes `some (block + i * size)`.
* A `buffer_st *` argument that may be `NULL` becomes `Option buffer_st`;
  mutation through the pointer becomes returning the updated value.
* The pool's descriptor array (a borrowed `buffer_st *` in C) is stored as
  `Option (List buffer_st)` inside the pool state; all pool operations
  return the updated pool.  Scans run over the first `buffer_count` entries
  (`List.take`), exactly as the C `for (index = 0; index < buffer_count; ++index)`
  loops do; in-bounds indexing (`buffer_count` not exceeding the real array
  length) is the C caller's obligation and appears as a hypothesis.
* Inside a scan, `buffer_is_valid(&array[index])` can never see a `NULL`
  pointer, so it reduces to the `is_initialized` test on the entry.
* Operations that return a `buffer_st *` into the array return the index of
  that slot (`Option Nat`); the descriptor handed to the caller is the
  updated entry at that index.
-/

set_option autoImplicit false

/-- One buffer descriptor (`buffer_st`). -/
structure buffer_st where
  data_u8p : Option Nat
  capacity_bytes : Nat
  is_available : Bool
  is_initialized : Bool
  deriving Repr, DecidableEq, Inhabited

/-- Pool of descriptors (`buffer_pool_st`).  The C struct holds a borrowed
pointer to the caller's array; the embedding stores the array itself. -/
structure buffer_pool_st where
  buffer_array_sa : Option (List buffer_st)
  buffer_count : Nat
  is_initialized : Bool
  deriving Repr, DecidableEq, Inhabited

/-- Context over a flat memory block (`buffer_array_ctx_st`).  The C field
`buffer_array_sa` aliases `pool_s.buffer_array_sa`; the embedding keeps the
single copy inside `pool_s`. -/
structure buffer_array_ctx_st where
  pool_s : buffer_pool_st
  memory_block_u8p : Option Nat
  buffer_count : Nat
  buffer_size : Nat
  is_initialized : Bool
  deriving Repr, DecidableEq, Inhabited

/-- `buffer_is_valid`: non-NULL and initialized. -/
def buffer_is_valid (b : Option buffer_st) : Bool :=
  match b with
  | none => false
  | some x => x.is_initialized

/-- `buffer_pool_is_valid`: non-NULL, initialized, array present, count > 0. -/
def buffer_pool_is_valid (p : Option buffer_pool_st) : Bool :=
  match p with
  | none => false
  | some q => q.is_initialized && q.buffer_array_sa.isSome && decide (0 < q.buffer_count)

/-- The descriptor value written by `buffer_init` on a non-NULL descriptor:
records pointer and capacity, sets `is_initialized`, and sets
`is_available` exactly when the pointer is present and the capacity nonzero. -/
def buffer_init_entry (memory_u8p : Option Nat) (capacity_bytes : Nat) : buffer_st :=
  { data_u8p := memory_u8p
    capacity_bytes := capacity_bytes
    is_available := memory_u8p.isSome && decide (capacity_bytes ≠ 0)
    is_initialized := true }

/-- `buffer_init`: no-op on a NULL descriptor, otherwise overwrites all fields. -/
def buffer_init (b : Option buffer_st) (memory_u8p : Option Nat) (capacity_bytes : Nat) :
    Option buffer_st :=
  match b with
  | none => none
  | some _ => some (buffer_init_entry memory_u8p capacity_bytes)

/-- `buffer_data`: returns the backing pointer and the capacity written to the
out-parameter; `(none, 0)` when the descriptor is NULL or uninitialized. -/
def buffer_data (b : Option buffer_st) : Option Nat × Nat :=
  if buffer_is_valid b then
    match b with
    | some x => (x.data_u8p, x.capacity_bytes)
    | none => (none, 0)
  else (none, 0)

/-- Effect of `buffer_mark_free` on a descriptor value reached through a
non-NULL pointer: sets `is_available` when initialized, no-op otherwise. -/
def buffer_entry_mark_free (b : buffer_st) : buffer_st :=
  if b.is_initialized then { b with is_available := true } else b

/-- Effect of `buffer_mark_in_use` on a descriptor value reached through a
non-NULL pointer. -/
def buffer_entry_mark_in_use (b : buffer_st) : buffer_st :=
  if b.is_initialized then { b with is_available := false } else b

/-- `buffer_mark_free` on a possibly-NULL descriptor. -/
def buffer_mark_free (b : Option buffer_st) : Option buffer_st :=
  match b with
  | none => none
  | some x => some (buffer_entry_mark_free x)

/-- `buffer_mark_in_use` on a possibly-NULL descriptor. -/
def buffer_mark_in_use (b : Option buffer_st) : Option buffer_st :=
  match b with
  | none => none
  | some x => some (buffer_entry_mark_in_use x)

/-- `buffer_pool_init`: no-op when the pool is NULL, the array is NULL or the
count is zero; otherwise binds array and count and marks initialized. -/
def buffer_pool_init (p : Option buffer_pool_st) (arr : Option (List buffer_st))
    (count : Nat) : Option buffer_pool_st :=
  match p with
  | none => none
  | some q =>
    match arr with
    | none => some q
    | some l =>
      if count = 0 then some q
      else some { buffer_array_sa := some l, buffer_count := count, is_initialized := true }

/-- Generic form of the two linear-scan loops in `buffer_pool_acquire` and
`buffer_pool_find`: index of the first entry satisfying `p`. -/
def scanFirst (p : buffer_st → Bool) : List buffer_st → Option Nat
  | [] => none
  | b :: rest =>
    if p b then some 0
    else (scanFirst p rest).map (· + 1)

/-- The per-entry test of the `buffer_pool_acquire` loop:
`buffer_is_valid(&array[index]) && array[index].is_available`. -/
def entryFreeB (b : buffer_st) : Bool :=
  b.is_initialized && b.is_available

/-- The per-entry test of the `buffer_pool_find` loop:
`buffer_is_valid(&array[index]) && array[index].data_u8p == memory_u8p`. -/
def entryMatchB (m : Nat) (b : buffer_st) : Bool :=
  b.is_initialized && (b.data_u8p == some m)

/-- The scan loop of `buffer_pool_acquire`: index of the first entry that is
initialized and available. -/
def buffer_scan_free : List buffer_st → Option Nat :=
  scanFirst entryFreeB

/-- `buffer_pool_acquire`: NULL/invalid pool gives `none` and leaves the pool
unchanged; otherwise the first initialized-and-available entry among the
first `buffer_count` is marked in-use and its index returned. -/
def buffer_pool_acquire (pool : Option buffer_pool_st) :
    Option Nat × Option buffer_pool_st :=
  match pool with
  | none => (none, none)
  | some q =>
    if buffer_pool_is_valid (some q) then
      match q.buffer_array_sa with
      | none => (none, some q)
      | some l =>
        match buffer_scan_free (l.take q.buffer_count) with
        | none => (none, some q)
        | some i =>
          let marked : buffer_st := { l.getD i default with is_available := false }
          (some i, some { q with buffer_array_sa := some (l.set i marked) })
    else (none, some q)

/-- The scan loop of `buffer_pool_find`: index of the first initialized entry
whose backing pointer equals the queried address. -/
def buffer_scan_match (m : Nat) : List buffer_st → Option Nat :=
  scanFirst (entryMatchB m)

/-- `buffer_pool_find`: `none` on an invalid pool or NULL query pointer;
otherwise the first matching initialized entry among the first
`buffer_count`, by pointer-address equality. -/
def buffer_pool_find (pool : Option buffer_pool_st) (memory_u8p : Option Nat) :
    Option Nat :=
  match pool, memory_u8p with
  | some q, some m =>
    if buffer_pool_is_valid (some q) then
      match q.buffer_array_sa with
      | none => none
      | some l => buffer_scan_match m (l.take q.buffer_count)
    else none
  | _, _ => none

/-- `buffer_pool_release_by_ptr`: find, then `buffer_mark_free` on the found
descriptor; `true` exactly when a match was found. -/
def buffer_pool_release_by_ptr (pool : Option buffer_pool_st)
    (memory_u8p : Option Nat) : Bool × Option buffer_pool_st :=
  match pool with
  | none => (false, none)
  | some q =>
    match buffer_pool_find (some q) memory_u8p with
    | none => (false, some q)
    | some i =>
      match q.buffer_array_sa with
      | none => (true, some q)
      | some l =>
        let freed : List buffer_st := l.set i (buffer_entry_mark_free (l.getD i default))
        (true, some { q with buffer_array_sa := some freed })

/-- `buffer_pool_mark_all_free`: on a valid pool, `buffer_mark_free` on every
entry among the first `buffer_count` (only initialized ones change). -/
def buffer_pool_mark_all_free (pool : Option buffer_pool_st) :
    Option buffer_pool_st :=
  match pool with
  | none => none
  | some q =>
    if buffer_pool_is_valid (some q) then
      match q.buffer_array_sa with
      | none => some q
      | some l =>
        let freed : List buffer_st :=
          (l.take q.buffer_count).map buffer_entry_mark_free ++ l.drop q.buffer_count
        some { q with buffer_array_sa := some freed }
    else some q

/-- The descriptor-initialization loop of `buffer_array_ctx_init`:
`buffer_init(&array[i], &block[i * size], size)` for `i` in `[0, count)`. -/
def buffer_init_chunks (l : List buffer_st) (block size : Nat) : Nat → List buffer_st
  | 0 => l
  | n + 1 =>
    (buffer_init_chunks l block size n).set n
      (buffer_init_entry (some (block + n * size)) size)

/-- `buffer_array_ctx_init`: no-op when any argument is NULL or a size is
zero; otherwise initializes `count` descriptors at stride `size` over the
block, initializes the internal pool, and marks the context initialized. -/
def buffer_array_ctx_init (ctx : Option buffer_array_ctx_st)
    (arr : Option (List buffer_st)) (block : Option Nat)
    (count size : Nat) : Option buffer_array_ctx_st :=
  match ctx with
  | none => none
  | some c =>
    match arr, block with
    | some l, some b =>
      if count = 0 ∨ size = 0 then some c
      else
        some { pool_s := { buffer_array_sa := some (buffer_init_chunks l b size count)
                           buffer_count := count
                           is_initialized := true }
               memory_block_u8p := some b
               buffer_count := count
               buffer_size := size
               is_initialized := true }
    | _, _ => some c

/-- `buffer_array_acquire`: gate on the context's own flag, then forward. -/
def buffer_array_acquire (ctx : Option buffer_array_ctx_st) :
    Option Nat × Option buffer_array_ctx_st :=
  match ctx with
  | none => (none, none)
  | some c =>
    if c.is_initialized then
      match buffer_pool_acquire (some c.pool_s) with
      | (r, some p2) => (r, some { c with pool_s := p2 })
      | (r, none) => (r, some c)
    else (none, some c)

/-- `buffer_array_find_by_ptr`: gate on the context's own flag, then forward. -/
def buffer_array_find_by_ptr (ctx : Option buffer_array_ctx_st)
    (memory_u8p : Option Nat) : Option Nat :=
  match ctx with
  | none => none
  | some c =>
    if c.is_initialized then buffer_pool_find (some c.pool_s) memory_u8p
    else none

/-- `buffer_array_release_by_ptr`: gate on the context's own flag, then forward. -/
def buffer_array_release_by_ptr (ctx : Option buffer_array_ctx_st)
    (memory_u8p : Option Nat) : Bool × Option buffer_array_ctx_st :=
  match ctx with
  | none => (false, none)
  | some c =>
    if c.is_initialized then
      match buffer_pool_release_by_ptr (some c.pool_s) memory_u8p with
      | (r, some p2) => (r, some { c with pool_s := p2 })
      | (r, none) => (r, some c)
    else (false, some c)

/-- Entry `j` of `l` satisfies `p` (`false` when `j` is out of range). -/
def predB (p : buffer_st → Bool) (l : List buffer_st) (j : Nat) : Bool :=
  match l[j]? with
  | some b => p b
  | none => false

/-- Entry `j` of `l` is initialized and available. -/
def freeB (l : List buffer_st) (j : Nat) : Bool :=
  predB entryFreeB l j

/-- Entry `j` of `l` is initialized with backing pointer `m`. -/
def matchB (m : Nat) (l : List buffer_st) (j : Nat) : Bool :=
  predB (entryMatchB m) l j

/-- Availability flag of entry `i` of the pool state (`false` when absent). -/
def availAt (s : Option buffer_pool_st) (i : Nat) : Bool :=
  match s with
  | none => false
  | some q =>
    match q.buffer_array_sa with
    | none => false
    | some l =>
      match l[i]? with
      | none => false
      | some b => b.is_available

/-- The immutable part of entry `j`: backing pointer, capacity, initialized. -/
def entryShape (s : Option buffer_pool_st) (j : Nat) :
    Option (Option Nat × Nat × Bool) :=
  match s with
  | none => none
  | some q =>
    match q.buffer_array_sa with
    | none => none
    | some l => (l[j]?).map (fun b => (b.data_u8p, b.capacity_bytes, b.is_initialized))

/-- `entryShape` through a context. -/
def ctxEntryShape (c : Option buffer_array_ctx_st) (j : Nat) :
    Option (Option Nat × Nat × Bool) :=
  match c with
  | none => none
  | some x => entryShape (some x.pool_s) j

/-- `n` successive `buffer_pool_acquire` calls: the list of returned slot
indices and the final pool state. -/
def acquireSeq (p : Option buffer_pool_st) : Nat → List (Option Nat) × Option buffer_pool_st
  | 0 => ([], p)
  | n + 1 =>
    let r := buffer_pool_acquire p
    let rest := acquireSeq r.2 n
    (r.1 :: rest.1, rest.2)

/-- Every entry of `l` is initialized, and entry `j` is available exactly
when `k ≤ j` (the first `k` slots are loaned out). -/
def allFreeFrom (l : List buffer_st) (k : Nat) : Prop :=
  ∀ (j : Nat) (b : buffer_st), l[j]? = some b →
    b.is_initialized = true ∧ b.is_available = decide (k ≤ j)

/-- The mutating pool-level operations a caller can interleave, for the
temporal no-double-acquire property.  `markFree j` / `markInUse j` stand for
`buffer_mark_free` / `buffer_mark_in_use` applied to `&array[j]`. -/
inductive PoolOp where
  | acquire : PoolOp
  | findByPtr : Nat → PoolOp
  | releaseByPtr : Nat → PoolOp
  | markAllFree : PoolOp
  | markFree : Nat → PoolOp
  | markInUse : Nat → PoolOp
  deriving Repr, DecidableEq

/-- Apply a descriptor-level mutation `f` through the pointer `&array[j]`. -/
def poolEntryApply (s : Option buffer_pool_st) (j : Nat) (f : buffer_st → buffer_st) :
    Option buffer_pool_st :=
  match s with
  | none => none
  | some q =>
    match q.buffer_array_sa with
    | none => some q
    | some l => some { q with buffer_array_sa := some (l.set j (f (l.getD j default))) }

/-- One step of the operation language: next pool state, and the slot index
returned when the operation is an `acquire`. -/
def stepOp (s : Option buffer_pool_st) : PoolOp → Option buffer_pool_st × Option Nat
  | .acquire => ((buffer_pool_acquire s).2, (buffer_pool_acquire s).1)
  | .findByPtr _ => (s, none)
  | .releaseByPtr p => ((buffer_pool_release_by_ptr s (some p)).2, none)
  | .markAllFree => (buffer_pool_mark_all_free s, none)
  | .markFree j => (poolEntryApply s j buffer_entry_mark_free, none)
  | .markInUse j => (poolEntryApply s j buffer_entry_mark_in_use, none)

/-- Run a list of operations. -/
def execOps (s : Option buffer_pool_st) : List PoolOp → Option buffer_pool_st
  | [] => s
  | op :: rest => execOps (stepOp s op).1 rest

/-- The operation, performed in state `s`, frees slot `i`: a `mark_all_free`,
a `mark_free` on that slot, or a `release_by_ptr` that finds that slot. -/
def freesIdx (s : Option buffer_pool_st) (op : PoolOp) (i : Nat) : Bool :=
  match op with
  | .markAllFree => true
  | .markFree j => j == i
  | .releaseByPtr p => buffer_pool_find s (some p) == some i
  | _ => false

/-! ### Facts about the linear scans -/

theorem predB_nil (p : buffer_st → Bool) (j : Nat) : predB p [] j = false := by
  simp [predB]

theorem predB_cons_zero (p : buffer_st → Bool) (b : buffer_st) (rest : List buffer_st) :
    predB p (b :: rest) 0 = p b := by
  simp [predB]

theorem predB_cons_succ (p : buffer_st → Bool) (b : buffer_st) (rest : List buffer_st)
    (j : Nat) : predB p (b :: rest) (j + 1) = predB p rest j := by
  simp [predB]

theorem predB_of_getElem? (p : buffer_st → Bool) (l : List buffer_st) (j : Nat)
    (b : buffer_st) (h : l[j]? = some b) : predB p l j = p b := by
  simp [predB, h]

theorem predB_take (p : buffer_st → Bool) (l : List buffer_st) (c j : Nat) :
    predB p (l.take c) j = if j < c then predB p l j else false := by
  unfold predB
  rw [List.getElem?_take]
  by_cases h : j < c <;> simp [h]

theorem scanFirst_eq_none (p : buffer_st → Bool) (l : List buffer_st) :
    scanFirst p l = none ↔ ∀ j, predB p l j = false := by
  induction l with
  | nil => simp [scanFirst, predB]
  | cons b rest ih =>
    simp only [scanFirst]
    cases hb : p b
    · simp only [Bool.false_eq_true, if_false, Option.map_eq_none']
      rw [ih]
      constructor
      · intro h j
        cases j with
        | zero => rw [predB_cons_zero]; exact hb
        | succ k => rw [predB_cons_succ]; exact h k
      · intro h j
        have := h (j + 1)
        rwa [predB_cons_succ] at this
    · simp only [if_true]
      constructor
      · intro h; exact (Option.some_ne_none _ h).elim
      · intro h
        have h0 := h 0
        rw [predB_cons_zero, hb] at h0
        exact absurd h0 (by simp)

theorem scanFirst_eq_some (p : buffer_st → Bool) (l : List buffer_st) (i : Nat) :
    scanFirst p l = some i ↔
      (predB p l i = true ∧ ∀ j, j < i → predB p l j = false) := by
  induction l generalizing i with
  | nil => simp [scanFirst, predB]
  | cons b rest ih =>
    simp only [scanFirst]
    cases hb : p b
    · simp only [Bool.false_eq_true, if_false]
      cases i with
      | zero =>
        constructor
        · intro h
          obtain ⟨a, -, hae⟩ := Option.map_eq_some'.mp h
          exact absurd hae (by omega)
        · rintro ⟨h0, -⟩
          rw [predB_cons_zero, hb] at h0
          exact absurd h0 (by simp)
      | succ k =>
        rw [Option.map_eq_some']
        constructor
        · rintro ⟨a, ha, hae⟩
          have hak : a = k := by omega
          rw [hak] at ha
          obtain ⟨h1, h2⟩ := (ih k).mp ha
          refine ⟨by rwa [predB_cons_succ], ?_⟩
          intro j hj
          cases j with
          | zero => rw [predB_cons_zero]; exact hb
          | succ j2 =>
            rw [predB_cons_succ]
            exact h2 j2 (by omega)
        · rintro ⟨h1, h2⟩
          refine ⟨k, (ih k).mpr ⟨by rwa [predB_cons_succ] at h1, ?_⟩, rfl⟩
          intro j hj
          have := h2 (j + 1) (by omega)
          rwa [predB_cons_succ] at this
    · simp only [if_true]
      cases i with
      | zero => simp [predB_cons_zero, hb]
      | succ k =>
        constructor
        · intro h; exact absurd (Option.some.inj h) (by omega)
        · rintro ⟨-, hlt⟩
          have h0 := hlt 0 (Nat.succ_pos k)
          rw [predB_cons_zero, hb] at h0
          exact absurd h0 (by simp)

/-! ### Pool-level helper lemmas -/

theorem predB_set_ne (p : buffer_st → Bool) (l : List buffer_st) (i j : Nat)
    (b : buffer_st) (h : i ≠ j) : predB p (l.set i b) j = predB p l j := by
  simp [predB, List.getElem?_set_ne h]

theorem predB_set_self (p : buffer_st → Bool) (l : List buffer_st) (i : Nat)
    (b : buffer_st) (h : i < l.length) : predB p (l.set i b) i = p b := by
  simp [predB, List.getElem?_set, h]

theorem predB_true_lt_length (p : buffer_st → Bool) (l : List buffer_st) (j : Nat)
    (h : predB p l j = true) : j < l.length := by
  by_contra hlen
  rw [predB, List.getElem?_eq_none (by omega)] at h
  exact absurd h (by simp)

theorem scanFirst_eq_of_predB_eq (p : buffer_st → Bool) (l l2 : List buffer_st)
    (h : ∀ j, predB p l j = predB p l2 j) : scanFirst p l = scanFirst p l2 := by
  cases hs : scanFirst p l2 with
  | none =>
    rw [scanFirst_eq_none]
    intro j
    rw [h j]
    exact (scanFirst_eq_none p l2).mp hs j
  | some i =>
    rw [scanFirst_eq_some]
    obtain ⟨h1, h2⟩ := (scanFirst_eq_some p l2 i).mp hs
    exact ⟨(h i).trans h1, fun j hj => (h j).trans (h2 j hj)⟩

theorem buffer_pool_is_valid_mk (q : buffer_pool_st) (l : List buffer_st)
    (harr : q.buffer_array_sa = some l) (hinit : q.is_initialized = true)
    (hcnt : 0 < q.buffer_count) : buffer_pool_is_valid (some q) = true := by
  simp [buffer_pool_is_valid, harr, hinit, hcnt]

theorem acquire_of_invalid (q : buffer_pool_st)
    (h : buffer_pool_is_valid (some q) = false) :
    buffer_pool_acquire (some q) = (none, some q) := by
  simp [buffer_pool_acquire, h]

theorem acquire_of_scan_none (q : buffer_pool_st) (l : List buffer_st)
    (hv : buffer_pool_is_valid (some q) = true) (harr : q.buffer_array_sa = some l)
    (hscan : scanFirst entryFreeB (l.take q.buffer_count) = none) :
    buffer_pool_acquire (some q) = (none, some q) := by
  simp [buffer_pool_acquire, hv, harr, buffer_scan_free, hscan]

theorem acquire_of_scan_some (q : buffer_pool_st) (l : List buffer_st) (i : Nat)
    (hv : buffer_pool_is_valid (some q) = true) (harr : q.buffer_array_sa = some l)
    (hscan : scanFirst entryFreeB (l.take q.buffer_count) = some i) :
    buffer_pool_acquire (some q) =
      (some i, some { q with buffer_array_sa := some (l.set i { l.getD i default with is_available := false }) }) := by
  simp [buffer_pool_acquire, hv, harr, buffer_scan_free, hscan]

theorem find_eq_none_iff (q : buffer_pool_st) (l : List buffer_st) (m : Nat)
    (harr : q.buffer_array_sa = some l)
    (hv : buffer_pool_is_valid (some q) = true) :
    buffer_pool_find (some q) (some m) = none ↔
      ∀ j, j < q.buffer_count → matchB m l j = false := by
  simp only [buffer_pool_find, hv, if_true, harr, buffer_scan_match]
  rw [scanFirst_eq_none]
  constructor
  · intro h j hj
    have := h j
    rwa [predB_take, if_pos hj] at this
  · intro h j
    rw [predB_take]
    by_cases hj : j < q.buffer_count
    · rw [if_pos hj]; exact h j hj
    · rw [if_neg hj]

theorem find_eq_some_iff (q : buffer_pool_st) (l : List buffer_st) (m i : Nat)
    (harr : q.buffer_array_sa = some l)
    (hv : buffer_pool_is_valid (some q) = true) :
    buffer_pool_find (some q) (some m) = some i ↔
      (i < q.buffer_count ∧ matchB m l i = true ∧
       ∀ j, j < i → matchB m l j = false) := by
  simp only [buffer_pool_find, hv, if_true, harr, buffer_scan_match]
  rw [scanFirst_eq_some]
  constructor
  · rintro ⟨h1, h2⟩
    have hic : i < q.buffer_count := by
      by_contra hic
      rw [predB_take, if_neg hic] at h1
      exact absurd h1 (by simp)
    rw [predB_take, if_pos hic] at h1
    refine ⟨hic, h1, fun j hj => ?_⟩
    have := h2 j hj
    rwa [predB_take, if_pos (by omega)] at this
  · rintro ⟨hic, h1, h2⟩
    refine ⟨by rwa [predB_take, if_pos hic], fun j hj => ?_⟩
    rw [predB_take, if_pos (by omega)]
    exact h2 j hj

theorem availAt_some_arr (q : buffer_pool_st) (l : List buffer_st) (i : Nat)
    (harr : q.buffer_array_sa = some l) :
    availAt (some q) i = predB (fun b => b.is_available) l i := by
  cases h : l[i]? <;> simp [availAt, harr, predB, h]

theorem matchB_iff (m : Nat) (l : List buffer_st) (j : Nat) :
    matchB m l j = true ↔
      ∃ b : buffer_st, l[j]? = some b ∧ b.is_initialized = true ∧ b.data_u8p = some m := by
  unfold matchB predB entryMatchB
  cases h : l[j]? with
  | none => simp
  | some b => simp [h]

theorem freeB_iff (l : List buffer_st) (j : Nat) :
    freeB l j = true ↔
      ∃ b : buffer_st, l[j]? = some b ∧ b.is_initialized = true ∧ b.is_available = true := by
  unfold freeB predB entryFreeB
  cases h : l[j]? with
  | none => simp
  | some b => simp [h]

theorem find_some_elim (pool : Option buffer_pool_st) (m : Option Nat) (i : Nat)
    (h : buffer_pool_find pool m = some i) :
    ∃ (q : buffer_pool_st) (l : List buffer_st) (mv : Nat),
      pool = some q ∧ m = some mv ∧ q.buffer_array_sa = some l ∧
      buffer_pool_is_valid (some q) = true ∧
      i < q.buffer_count ∧ matchB mv l i = true ∧
      (∀ j, j < i → matchB mv l j = false) := by
  cases pool with
  | none => simp [buffer_pool_find] at h
  | some q =>
    cases m with
    | none => simp [buffer_pool_find] at h
    | some mv =>
      by_cases hv : buffer_pool_is_valid (some q) = true
      · cases harr : q.buffer_array_sa with
        | none => simp [buffer_pool_find, hv, harr] at h
        | some l =>
          obtain ⟨hic, hm, hlt⟩ := (find_eq_some_iff q l mv i harr hv).mp h
          exact ⟨q, l, mv, rfl, rfl, harr, hv, hic, hm, hlt⟩
      · rw [Bool.not_eq_true] at hv
        simp [buffer_pool_find, hv] at h

theorem matchB_lt_length (m : Nat) (l : List buffer_st) (j : Nat)
    (h : matchB m l j = true) : j < l.length := by
  obtain ⟨b, hb, -, -⟩ := (matchB_iff m l j).mp h
  exact (List.getElem?_eq_some_iff.mp hb).1

theorem matchB_set_shape (m : Nat) (l : List buffer_st) (i : Nat) (bnew : buffer_st)
    (j : Nat) (hd : bnew.data_u8p = (l.getD i default).data_u8p)
    (hi : bnew.is_initialized = (l.getD i default).is_initialized) :
    matchB m (l.set i bnew) j = matchB m l j := by
  by_cases hij : i = j
  · subst hij
    by_cases hlen : i < l.length
    · unfold matchB
      rw [predB_set_self _ _ _ _ hlen]
      rw [predB_of_getElem? _ _ _ _ (List.getElem?_eq_getElem hlen)]
      rw [List.getD_eq_getElem l default hlen] at hd hi
      unfold entryMatchB
      rw [hd, hi]
    · rw [List.set_eq_of_length_le (by omega)]
  · unfold matchB
    exact predB_set_ne _ _ _ _ _ hij

theorem buffer_entry_mark_free_data (b : buffer_st) :
    (buffer_entry_mark_free b).data_u8p = b.data_u8p := by
  unfold buffer_entry_mark_free
  by_cases h : b.is_initialized = true <;> simp [h]

theorem buffer_entry_mark_free_capacity (b : buffer_st) :
    (buffer_entry_mark_free b).capacity_bytes = b.capacity_bytes := by
  unfold buffer_entry_mark_free
  by_cases h : b.is_initialized = true <;> simp [h]

theorem buffer_entry_mark_free_keeps_init (b : buffer_st) :
    (buffer_entry_mark_free b).is_initialized = b.is_initialized := by
  unfold buffer_entry_mark_free
  by_cases h : b.is_initialized = true <;> simp [h]

theorem buffer_entry_mark_in_use_data (b : buffer_st) :
    (buffer_entry_mark_in_use b).data_u8p = b.data_u8p := by
  unfold buffer_entry_mark_in_use
  by_cases h : b.is_initialized = true <;> simp [h]

theorem buffer_entry_mark_in_use_capacity (b : buffer_st) :
    (buffer_entry_mark_in_use b).capacity_bytes = b.capacity_bytes := by
  unfold buffer_entry_mark_in_use
  by_cases h : b.is_initialized = true <;> simp [h]

theorem buffer_entry_mark_in_use_keeps_init (b : buffer_st) :
    (buffer_entry_mark_in_use b).is_initialized = b.is_initialized := by
  unfold buffer_entry_mark_in_use
  by_cases h : b.is_initialized = true <;> simp [h]

theorem find_pool_set (q : buffer_pool_st) (l : List buffer_st) (i : Nat)
    (bnew : buffer_st) (m : Nat) (harr : q.buffer_array_sa = some l)
    (hv : buffer_pool_is_valid (some q) = true)
    (hd : bnew.data_u8p = (l.getD i default).data_u8p)
    (hi : bnew.is_initialized = (l.getD i default).is_initialized) :
    buffer_pool_find (some { q with buffer_array_sa := some (l.set i bnew) }) (some m) =
      buffer_pool_find (some q) (some m) := by
  have hv2 : buffer_pool_is_valid (some { q with buffer_array_sa := some (l.set i bnew) }) = true := by
    simp only [buffer_pool_is_valid] at hv ⊢
    simp only [harr] at hv
    simpa using hv
  simp only [buffer_pool_find, hv, hv2, if_true, harr, buffer_scan_match]
  apply scanFirst_eq_of_predB_eq
  intro j
  rw [predB_take, predB_take]
  by_cases hj : j < q.buffer_count
  · rw [if_pos hj, if_pos hj]
    exact matchB_set_shape m l i bnew j hd hi
  · rw [if_neg hj, if_neg hj]

theorem release_of_find_none (pool : Option buffer_pool_st) (m : Option Nat)
    (h : buffer_pool_find pool m = none) :
    buffer_pool_release_by_ptr pool m = (false, pool) := by
  cases pool with
  | none => rfl
  | some q => simp [buffer_pool_release_by_ptr, h]

theorem release_of_find_some (q : buffer_pool_st) (l : List buffer_st)
    (m : Option Nat) (i : Nat) (harr : q.buffer_array_sa = some l)
    (h : buffer_pool_find (some q) m = some i) :
    buffer_pool_release_by_ptr (some q) m =
      (true, some { q with buffer_array_sa := some (l.set i (buffer_entry_mark_free (l.getD i default))) }) := by
  simp [buffer_pool_release_by_ptr, h, harr]

theorem release_found (pool : Option buffer_pool_st) (m : Option Nat) (i : Nat)
    (h : buffer_pool_find pool m = some i) :
    (buffer_pool_release_by_ptr pool m).1 = true ∧
    availAt (buffer_pool_release_by_ptr pool m).2 i = true ∧
    buffer_pool_find (buffer_pool_release_by_ptr pool m).2 m = some i := by
  obtain ⟨q, l, mv, hpool, hm, harr, hv, hic, hmi, -⟩ := find_some_elim pool m i h
  subst hpool
  subst hm
  rw [release_of_find_some q l (some mv) i harr h]
  obtain ⟨b, hb, hbinit, -⟩ := (matchB_iff mv l i).mp hmi
  have hlen : i < l.length := (List.getElem?_eq_some_iff.mp hb).1
  have hgetD : l.getD i default = b := by
    rw [List.getD_eq_getElem l default hlen]
    exact (List.getElem?_eq_some_iff.mp hb).2
  refine ⟨rfl, ?_, ?_⟩
  · rw [availAt_some_arr _ (l.set i (buffer_entry_mark_free (l.getD i default))) i rfl]
    rw [predB_set_self _ _ _ _ hlen]
    rw [hgetD]
    simp [buffer_entry_mark_free, hbinit]
  · rw [find_pool_set q l i (buffer_entry_mark_free (l.getD i default)) mv harr hv
      (buffer_entry_mark_free_data _) (buffer_entry_mark_free_keeps_init _)]
    exact h

theorem availAt_acquire_fst_some (s : Option buffer_pool_st) (i : Nat)
    (h : (buffer_pool_acquire s).1 = some i) : availAt s i = true := by
  cases s with
  | none => simp [buffer_pool_acquire] at h
  | some q =>
    by_cases hv : buffer_pool_is_valid (some q) = true
    · cases harr : q.buffer_array_sa with
      | none => simp [buffer_pool_acquire, hv, harr] at h
      | some l =>
        cases hscan : buffer_scan_free (l.take q.buffer_count) with
        | none => simp [buffer_pool_acquire, hv, harr, hscan] at h
        | some k =>
          have hk : k = i := by
            simpa [buffer_pool_acquire, hv, harr, hscan] using h
          rw [hk] at hscan
          obtain ⟨h1, -⟩ := (scanFirst_eq_some entryFreeB (l.take q.buffer_count) i).mp hscan
          have hic : i < q.buffer_count := by
            by_contra hic
            rw [predB_take, if_neg hic] at h1
            exact absurd h1 (by simp)
          rw [predB_take, if_pos hic] at h1
          obtain ⟨b, hb, -, hbav⟩ := (freeB_iff l i).mp h1
          rw [availAt_some_arr q l i harr]
          rw [predB_of_getElem? _ _ _ _ hb]
          exact hbav
    · rw [Bool.not_eq_true] at hv
      rw [acquire_of_invalid q hv] at h
      exact absurd h (by simp)

theorem acquire_some_elim (s : Option buffer_pool_st) (i : Nat)
    (h : (buffer_pool_acquire s).1 = some i) :
    ∃ (q : buffer_pool_st) (l : List buffer_st),
      s = some q ∧ q.buffer_array_sa = some l ∧
      buffer_pool_is_valid (some q) = true ∧ i < q.buffer_count ∧ i < l.length ∧
      freeB l i = true ∧ (∀ j, j < i → freeB l j = false) ∧
      (buffer_pool_acquire s).2 =
        some { q with buffer_array_sa := some (l.set i { l.getD i default with is_available := false }) } := by
  cases s with
  | none => simp [buffer_pool_acquire] at h
  | some q =>
    by_cases hv : buffer_pool_is_valid (some q) = true
    · cases harr : q.buffer_array_sa with
      | none => simp [buffer_pool_acquire, hv, harr] at h
      | some l =>
        cases hscan : buffer_scan_free (l.take q.buffer_count) with
        | none => simp [buffer_pool_acquire, hv, harr, hscan] at h
        | some k =>
          have hk : k = i := by
            simpa [buffer_pool_acquire, hv, harr, hscan] using h
          rw [hk] at hscan
          obtain ⟨h1, h2⟩ := (scanFirst_eq_some entryFreeB (l.take q.buffer_count) i).mp hscan
          have hic : i < q.buffer_count := by
            by_contra hic
            rw [predB_take, if_neg hic] at h1
            exact absurd h1 (by simp)
          rw [predB_take, if_pos hic] at h1
          have hlen : i < l.length := predB_true_lt_length _ _ _ h1
          refine ⟨q, l, rfl, harr, hv, hic, hlen, h1, ?_, ?_⟩
          · intro j hj
            have := h2 j hj
            rwa [predB_take, if_pos (by omega)] at this
          · rw [acquire_of_scan_some q l i hv harr hscan]
    · rw [Bool.not_eq_true] at hv
      rw [acquire_of_invalid q hv] at h
      exact absurd h (by simp)

theorem acquire_fst_none_snd (s : Option buffer_pool_st)
    (h : (buffer_pool_acquire s).1 = none) : (buffer_pool_acquire s).2 = s := by
  cases s with
  | none => rfl
  | some q =>
    by_cases hv : buffer_pool_is_valid (some q) = true
    · cases harr : q.buffer_array_sa with
      | none => simp [buffer_pool_acquire, hv, harr]
      | some l =>
        cases hscan : buffer_scan_free (l.take q.buffer_count) with
        | none => simp [buffer_pool_acquire, hv, harr, hscan]
        | some k => simp [buffer_pool_acquire, hv, harr, hscan] at h
    · rw [Bool.not_eq_true] at hv
      rw [acquire_of_invalid q hv]

theorem entryShape_some_arr (q : buffer_pool_st) (l : List buffer_st) (j : Nat)
    (harr : q.buffer_array_sa = some l) :
    entryShape (some q) j =
      (l[j]?).map (fun b => (b.data_u8p, b.capacity_bytes, b.is_initialized)) := by
  simp [entryShape, harr]

theorem entryShape_set (q : buffer_pool_st) (l : List buffer_st) (i : Nat)
    (bnew : buffer_st) (j : Nat) (harr : q.buffer_array_sa = some l)
    (hd : bnew.data_u8p = (l.getD i default).data_u8p)
    (hc : bnew.capacity_bytes = (l.getD i default).capacity_bytes)
    (hi : bnew.is_initialized = (l.getD i default).is_initialized) :
    entryShape (some { q with buffer_array_sa := some (l.set i bnew) }) j =
      entryShape (some q) j := by
  rw [entryShape_some_arr _ (l.set i bnew) j rfl, entryShape_some_arr q l j harr]
  by_cases hij : i = j
  · subst hij
    by_cases hlen : i < l.length
    · rw [List.getElem?_eq_getElem (by simpa using hlen)]
      rw [List.getElem?_eq_getElem hlen]
      rw [List.getD_eq_getElem l default hlen] at hd hc hi
      simp only [Option.map_some', List.getElem_set]
      simp [hd, hc, hi]
    · rw [List.set_eq_of_length_le (by omega)]
  · rw [List.getElem?_set_ne hij]

theorem availAt_set_ne (q : buffer_pool_st) (l : List buffer_st) (i : Nat)
    (bnew : buffer_st) (j : Nat) (harr : q.buffer_array_sa = some l) (hij : i ≠ j) :
    availAt (some { q with buffer_array_sa := some (l.set i bnew) }) j =
      availAt (some q) j := by
  rw [availAt_some_arr _ (l.set i bnew) j rfl, availAt_some_arr q l j harr]
  exact predB_set_ne _ _ _ _ _ hij

theorem availAt_acquire_pres (s : Option buffer_pool_st) (i : Nat)
    (h : availAt s i = false) : availAt (buffer_pool_acquire s).2 i = false := by
  cases hf : (buffer_pool_acquire s).1 with
  | none => rw [acquire_fst_none_snd s hf]; exact h
  | some k =>
    have hk : availAt s k = true := availAt_acquire_fst_some s k hf
    have hki : k ≠ i := fun he => by rw [he, h] at hk; exact absurd hk (by simp)
    obtain ⟨q, l, hs, harr, -, -, -, -, -, hsnd⟩ := acquire_some_elim s k hf
    subst hs
    rw [hsnd, availAt_set_ne q l k _ i harr hki]
    exact h

theorem availAt_release_pres (s : Option buffer_pool_st) (m : Option Nat) (i : Nat)
    (h : availAt s i = false) (hnf : buffer_pool_find s m ≠ some i) :
    availAt (buffer_pool_release_by_ptr s m).2 i = false := by
  cases hf : buffer_pool_find s m with
  | none => rw [release_of_find_none s m hf]; exact h
  | some k =>
    have hki : k ≠ i := fun he => hnf (he ▸ hf)
    obtain ⟨q, l, mv, hs, hm, harr, -, -, -, -⟩ := find_some_elim s m k hf
    subst hs
    rw [release_of_find_some q l m k harr hf]
    rw [availAt_set_ne q l k _ i harr hki]
    exact h

theorem availAt_entryApply_markFree_ne (s : Option buffer_pool_st) (j i : Nat)
    (h : availAt s i = false) (hji : j ≠ i) :
    availAt (poolEntryApply s j buffer_entry_mark_free) i = false := by
  cases s with
  | none => exact h
  | some q =>
    cases harr : q.buffer_array_sa with
    | none => simp only [poolEntryApply, harr]; exact h
    | some l =>
      simp only [poolEntryApply, harr]
      rw [availAt_set_ne q l j _ i harr hji]
      exact h

theorem availAt_entryApply_markInUse (s : Option buffer_pool_st) (j i : Nat)
    (h : availAt s i = false) :
    availAt (poolEntryApply s j buffer_entry_mark_in_use) i = false := by
  cases s with
  | none => exact h
  | some q =>
    cases harr : q.buffer_array_sa with
    | none => simp only [poolEntryApply, harr]; exact h
    | some l =>
      simp only [poolEntryApply, harr]
      by_cases hji : j = i
      · subst hji
        by_cases hlen : j < l.length
        · rw [availAt_some_arr _ (l.set j _) j rfl]
          rw [predB_set_self _ _ _ _ hlen]
          rw [availAt_some_arr q l j harr,
            predB_of_getElem? _ _ _ _ (List.getElem?_eq_getElem hlen)] at h
          rw [List.getD_eq_getElem l default hlen]
          unfold buffer_entry_mark_in_use
          by_cases hbi : (l[j]).is_initialized = true
          · rw [if_pos hbi]
          · rw [if_neg hbi]
            exact h
        · rw [List.set_eq_of_length_le (by omega)]
          rw [availAt_some_arr _ l j rfl, availAt_some_arr q l j harr] at *
          exact h
      · rw [availAt_set_ne q l j _ i harr hji]
        exact h

theorem markAll_getElem? (l : List buffer_st) (c j : Nat) :
    ((l.take c).map buffer_entry_mark_free ++ l.drop c)[j]? =
      if j < c then (l[j]?).map buffer_entry_mark_free else l[j]? := by
  rw [List.getElem?_append]
  rw [List.length_map, List.length_take]
  by_cases hcl : c ≤ l.length
  · rw [Nat.min_eq_left hcl]
    by_cases hj : j < c
    · rw [if_pos hj, if_pos hj]
      rw [List.getElem?_map, List.getElem?_take, if_pos hj]
    · rw [if_neg hj, if_neg hj]
      rw [List.getElem?_drop]
      congr 1
      omega
  · rw [Nat.min_eq_right (by omega)]
    rw [List.drop_eq_nil_of_le (by omega)]
    by_cases hl : j < l.length
    · rw [if_pos hl, if_pos (by omega)]
      rw [List.getElem?_map, List.getElem?_take, if_pos (by omega)]
    · rw [if_neg hl]
      have hnone : l[j]? = none := List.getElem?_eq_none (by omega)
      rw [List.getElem?_nil, hnone]
      by_cases hj : j < c
      · rw [if_pos hj]
        rfl
      · rw [if_neg hj]

theorem entryShape_acquire (s : Option buffer_pool_st) (j : Nat) :
    entryShape (buffer_pool_acquire s).2 j = entryShape s j := by
  cases hf : (buffer_pool_acquire s).1 with
  | none => rw [acquire_fst_none_snd s hf]
  | some k =>
    obtain ⟨q, l, hs, harr, -, -, -, -, -, hsnd⟩ := acquire_some_elim s k hf
    subst hs
    rw [hsnd]
    exact entryShape_set q l k _ j harr rfl rfl rfl

theorem entryShape_release (s : Option buffer_pool_st) (m : Option Nat) (j : Nat) :
    entryShape (buffer_pool_release_by_ptr s m).2 j = entryShape s j := by
  cases hf : buffer_pool_find s m with
  | none => rw [release_of_find_none s m hf]
  | some k =>
    obtain ⟨q, l, mv, hs, hm, harr, -, -, -, -⟩ := find_some_elim s m k hf
    subst hs
    rw [release_of_find_some q l m k harr hf]
    exact entryShape_set q l k _ j harr (buffer_entry_mark_free_data _)
      (buffer_entry_mark_free_capacity _) (buffer_entry_mark_free_keeps_init _)

theorem entryShape_markall (s : Option buffer_pool_st) (j : Nat) :
    entryShape (buffer_pool_mark_all_free s) j = entryShape s j := by
  cases s with
  | none => rfl
  | some q =>
    by_cases hv : buffer_pool_is_valid (some q) = true
    · cases harr : q.buffer_array_sa with
      | none => simp [buffer_pool_mark_all_free, hv, harr]
      | some l =>
        simp only [buffer_pool_mark_all_free, hv, if_true, harr]
        rw [entryShape_some_arr _ _ j rfl, entryShape_some_arr q l j harr]
        rw [markAll_getElem?]
        by_cases hj : j < q.buffer_count
        · rw [if_pos hj]
          cases hb : l[j]? with
          | none => rfl
          | some b =>
            simp only [Option.map_some']
            rw [buffer_entry_mark_free_data, buffer_entry_mark_free_capacity,
              buffer_entry_mark_free_keeps_init]
        · rw [if_neg hj]
    · rw [Bool.not_eq_true] at hv
      simp [buffer_pool_mark_all_free, hv]

theorem acquire_snd_of_some (q : buffer_pool_st) :
    ∃ q2 : buffer_pool_st, (buffer_pool_acquire (some q)).2 = some q2 := by
  by_cases hv : buffer_pool_is_valid (some q) = true
  · cases harr : q.buffer_array_sa with
    | none => exact ⟨q, by simp [buffer_pool_acquire, hv, harr]⟩
    | some l =>
      cases hscan : buffer_scan_free (l.take q.buffer_count) with
      | none => exact ⟨q, by simp [buffer_pool_acquire, hv, harr, hscan]⟩
      | some k =>
        rw [acquire_of_scan_some q l k hv harr hscan]
        exact ⟨_, rfl⟩
  · rw [Bool.not_eq_true] at hv
    exact ⟨q, by rw [acquire_of_invalid q hv]⟩

theorem release_snd_of_some (q : buffer_pool_st) (m : Option Nat) :
    ∃ q2 : buffer_pool_st, (buffer_pool_release_by_ptr (some q) m).2 = some q2 := by
  cases hf : buffer_pool_find (some q) m with
  | none => exact ⟨q, by rw [release_of_find_none _ m hf]⟩
  | some k =>
    obtain ⟨q2, l, mv, hs, hm, harr, -, -, -, -⟩ := find_some_elim (some q) m k hf
    cases hs
    exact ⟨_, by rw [release_of_find_some q l m k harr hf]⟩

theorem step_pres_unavail (s : Option buffer_pool_st) (op : PoolOp) (i : Nat)
    (h : availAt s i = false) (hf : freesIdx s op i = false) :
    availAt (stepOp s op).1 i = false := by
  cases op with
  | acquire => exact availAt_acquire_pres s i h
  | findByPtr p => exact h
  | releaseByPtr p =>
    have hnf : buffer_pool_find s (some p) ≠ some i := by
      intro he
      simp [freesIdx, he] at hf
    exact availAt_release_pres s (some p) i h hnf
  | markAllFree => simp [freesIdx] at hf
  | markFree j =>
    have hji : j ≠ i := by simpa [freesIdx] using hf
    exact availAt_entryApply_markFree_ne s j i h hji
  | markInUse j => exact availAt_entryApply_markInUse s j i h

theorem frees_of_acquire_unavail (i : Nat) (mid : List PoolOp) :
    ∀ s : Option buffer_pool_st, availAt s i = false →
      (buffer_pool_acquire (execOps s mid)).1 = some i →
      ∃ (m1 : List PoolOp) (op : PoolOp) (m2 : List PoolOp),
        mid = m1 ++ op :: m2 ∧ freesIdx (execOps s m1) op i = true := by
  induction mid with
  | nil =>
    intro s hs hacq
    rw [execOps] at hacq
    rw [availAt_acquire_fst_some s i hacq] at hs
    exact absurd hs (by simp)
  | cons op rest ih =>
    intro s hs hacq
    cases hfr : freesIdx s op i with
    | true => exact ⟨[], op, rest, rfl, hfr⟩
    | false =>
      have h2 : availAt (stepOp s op).1 i = false := step_pres_unavail s op i hs hfr
      have hacq2 : (buffer_pool_acquire (execOps (stepOp s op).1 rest)).1 = some i := by
        rw [execOps] at hacq
        exact hacq
      obtain ⟨m1, op2, m2, heq, hfr2⟩ := ih (stepOp s op).1 h2 hacq2
      exact ⟨op :: m1, op2, m2, by rw [heq]; rfl, hfr2⟩

theorem acquire_allFreeFrom_step (l : List buffer_st) (k : Nat) (hk : k < l.length)
    (h : allFreeFrom l k) :
    buffer_pool_acquire (some ⟨some l, l.length, true⟩) =
      (some k, some ⟨some (l.set k { l.getD k default with is_available := false }), l.length, true⟩) ∧
    allFreeFrom (l.set k { l.getD k default with is_available := false }) (k + 1) := by
  have hv : buffer_pool_is_valid (some (⟨some l, l.length, true⟩ : buffer_pool_st)) = true :=
    buffer_pool_is_valid_mk _ l rfl rfl (by show 0 < l.length; omega)
  have hscan : scanFirst entryFreeB (l.take l.length) = some k := by
    rw [List.take_length]
    rw [scanFirst_eq_some]
    constructor
    · obtain ⟨hfi, hfa⟩ := h k (l.get ⟨k, hk⟩) (by rw [List.getElem?_eq_getElem hk]; rfl)
      rw [predB_of_getElem? _ _ _ _ (List.getElem?_eq_getElem hk)]
      unfold entryFreeB
      rw [show l[k] = l.get ⟨k, hk⟩ from rfl, hfi, hfa]
      simp
    · intro j hj
      have hjlen : j < l.length := by omega
      obtain ⟨hfi, hfa⟩ := h j (l.get ⟨j, hjlen⟩) (by rw [List.getElem?_eq_getElem hjlen]; rfl)
      rw [predB_of_getElem? _ _ _ _ (List.getElem?_eq_getElem hjlen)]
      unfold entryFreeB
      rw [show l[j] = l.get ⟨j, hjlen⟩ from rfl, hfi, hfa]
      simp
      omega
  constructor
  · exact acquire_of_scan_some ⟨some l, l.length, true⟩ l k hv rfl hscan
  · intro j b hjb
    by_cases hjk : j = k
    · subst hjk
      rw [List.getElem?_set, if_pos rfl, if_pos hk] at hjb
      cases hjb
      obtain ⟨hfi, -⟩ := h j (l.get ⟨j, hk⟩) (by rw [List.getElem?_eq_getElem hk]; rfl)
      constructor
      · show (l.getD j default).is_initialized = true
        rw [List.getD_eq_getElem l default hk]
        exact hfi
      · simp
    · rw [List.getElem?_set_ne (by omega)] at hjb
      obtain ⟨hfi, hfa⟩ := h j b hjb
      refine ⟨hfi, ?_⟩
      rw [hfa]
      by_cases hkj : k ≤ j
      · have h1 : decide (k ≤ j) = true := by simpa using hkj
        have h2 : decide (k + 1 ≤ j) = true := by simp; omega
        rw [h1, h2]
      · have h1 : decide (k ≤ j) = false := by simpa using hkj
        have h2 : decide (k + 1 ≤ j) = false := by simp; omega
        rw [h1, h2]

theorem acquireSeq_allFreeFrom (l : List buffer_st) (m : Nat) :
    ∀ (k : Nat) (l2 : List buffer_st), l2.length = l.length → allFreeFrom l2 k →
      k + m ≤ l.length →
      ∃ l3 : List buffer_st, l3.length = l.length ∧ allFreeFrom l3 (k + m) ∧
        acquireSeq (some ⟨some l2, l.length, true⟩) m =
          ((List.range' k m).map some, some ⟨some l3, l.length, true⟩) := by
  induction m with
  | zero =>
    intro k l2 hlen hall hle
    exact ⟨l2, hlen, hall, by simp [acquireSeq]⟩
  | succ n ih =>
    intro k l2 hlen hall hle
    have hk : k < l2.length := by omega
    obtain ⟨heq, hall2⟩ := acquire_allFreeFrom_step l2 k hk hall
    rw [hlen] at heq
    have hlen2 : (l2.set k { l2.getD k default with is_available := false }).length = l.length := by
      rw [List.length_set]
      exact hlen
    obtain ⟨l3, hl3, hall3, hseq⟩ := ih (k + 1)
      (l2.set k { l2.getD k default with is_available := false }) hlen2 hall2 (by omega)
    refine ⟨l3, hl3, ?_, ?_⟩
    · have hcomm : k + 1 + n = k + (n + 1) := by omega
      rwa [hcomm] at hall3
    · have hunfold : acquireSeq (some (⟨some l2, l.length, true⟩ : buffer_pool_st)) (n + 1) =
        ((buffer_pool_acquire (some (⟨some l2, l.length, true⟩ : buffer_pool_st))).1 ::
          (acquireSeq (buffer_pool_acquire (some (⟨some l2, l.length, true⟩ : buffer_pool_st))).2 n).1,
         (acquireSeq (buffer_pool_acquire (some (⟨some l2, l.length, true⟩ : buffer_pool_st))).2 n).2) := rfl
      rw [hunfold, heq]
      simp only [hseq]
      rw [List.range'_succ]
      simp

theorem buffer_init_chunks_length (l : List buffer_st) (block size : Nat) (n : Nat) :
    (buffer_init_chunks l block size n).length = l.length := by
  induction n with
  | zero => rfl
  | succ k ih => simp [buffer_init_chunks, List.length_set, ih]

theorem buffer_init_chunks_getElem? (l : List buffer_st) (block size : Nat) (n j : Nat) :
    (buffer_init_chunks l block size n)[j]? =
      if j < n ∧ j < l.length then some (buffer_init_entry (some (block + j * size)) size)
      else l[j]? := by
  induction n with
  | zero => simp [buffer_init_chunks]
  | succ k ih =>
    show ((buffer_init_chunks l block size k).set k _)[j]? = _
    rw [List.getElem?_set]
    by_cases hjk : k = j
    · subst hjk
      rw [if_pos rfl]
      rw [buffer_init_chunks_length]
      by_cases hl : k < l.length
      · rw [if_pos hl, if_pos ⟨by omega, hl⟩]
      · rw [if_neg hl, if_neg (fun hc => hl hc.2)]
        rw [List.getElem?_eq_none (by omega)]
    · rw [if_neg hjk, ih]
      by_cases hcond : j < k ∧ j < l.length
      · rw [if_pos hcond, if_pos ⟨by omega, hcond.2⟩]
      · rw [if_neg hcond, if_neg (fun hc => hcond ⟨by omega, hc.2⟩)]

/-! ### Claim theorems -/

/-- Claim C1: for a non-NULL, initialized pool with a present descriptor array
and positive count, `buffer_pool_acquire` returns the lowest index whose
descriptor is both initialized and available, after clearing that
descriptor's availability; it returns `none` (leaving the pool unchanged)
when the pool is NULL or invalid, or when no scanned descriptor is both
initialized and available. -/
theorem acquire_returns_lowest_free :
    buffer_pool_acquire none = (none, none) ∧
    (∀ q : buffer_pool_st, buffer_pool_is_valid (some q) = false →
      buffer_pool_acquire (some q) = (none, some q)) ∧
    (∀ (q : buffer_pool_st) (l : List buffer_st),
      q.buffer_array_sa = some l → q.is_initialized = true → 0 < q.buffer_count →
      q.buffer_count ≤ l.length →
      ((∀ j, j < q.buffer_count → freeB l j = false) →
        buffer_pool_acquire (some q) = (none, some q)) ∧
      (∀ i, i < q.buffer_count → freeB l i = true → (∀ j, j < i → freeB l j = false) →
        buffer_pool_acquire (some q) = (some i, some { q with buffer_array_sa := some (l.set i { l.getD i default with is_available := false }) }))) := by
  refine ⟨rfl, ?_, ?_⟩
  · intro q h
    exact acquire_of_invalid q h
  · intro q l harr hinit hcnt hlen
    have hv := buffer_pool_is_valid_mk q l harr hinit hcnt
    constructor
    · intro hno
      apply acquire_of_scan_none q l hv harr
      rw [scanFirst_eq_none]
      intro j
      rw [predB_take]
      by_cases hj : j < q.buffer_count
      · rw [if_pos hj]
        exact hno j hj
      · rw [if_neg hj]
    · intro i hi hfree hlow
      apply acquire_of_scan_some q l i hv harr
      rw [scanFirst_eq_some]
      refine ⟨by rw [predB_take, if_pos hi]; exact hfree, ?_⟩
      intro j hj
      rw [predB_take, if_pos (by omega)]
      exact hlow j hj

/-- Witness for C1: on a two-slot pool whose slot 0 is in-use and slot 1 is
free, `buffer_pool_acquire` returns slot 1 and marks it in-use. -/
theorem acquire_returns_lowest_free_witness :
    buffer_pool_acquire (some ⟨some [⟨some 10, 4, false, true⟩, ⟨some 20, 4, true, true⟩], 2, true⟩) =
      (some 1, some ⟨some [⟨some 10, 4, false, true⟩, ⟨some 20, 4, false, true⟩], 2, true⟩) := by
  have h := (acquire_returns_lowest_free.2.2
    ⟨some [⟨some 10, 4, false, true⟩, ⟨some 20, 4, true, true⟩], 2, true⟩
    [⟨some 10, 4, false, true⟩, ⟨some 20, 4, true, true⟩]
    rfl rfl (by decide) (by decide)).2 1 (by decide) (by decide)
    (fun j hj => by
      have hj0 : j = 0 := by omega
      subst hj0
      decide)
  rw [h]
  decide

/-- Claim C7: `buffer_init` on a non-NULL descriptor with a NULL backing
pointer or zero capacity yields a descriptor that is initialized but not
available, and `buffer_mark_free` on that descriptor still sets its
availability to true. -/
theorem init_quirk_mark_free (b : buffer_st) (mem : Option Nat) (cap : Nat)
    (h : mem = none ∨ cap = 0) :
    buffer_init (some b) mem cap = some (buffer_init_entry mem cap) ∧
    (buffer_init_entry mem cap).is_initialized = true ∧
    (buffer_init_entry mem cap).is_available = false ∧
    buffer_mark_free (buffer_init (some b) mem cap) =
      some { buffer_init_entry mem cap with is_available := true } := by
  have hav : (buffer_init_entry mem cap).is_available = false := by
    rcases h with h | h
    · subst h
      simp [buffer_init_entry]
    · subst h
      simp [buffer_init_entry]
  exact ⟨rfl, rfl, hav,
    by simp [buffer_init, buffer_mark_free, buffer_entry_mark_free, buffer_init_entry]⟩

/-- Witness for C7 at a NULL backing pointer and capacity 5. -/
theorem init_quirk_mark_free_witness :
    buffer_init (some default) none 5 = some (buffer_init_entry none 5) ∧
    (buffer_init_entry none 5).is_initialized = true ∧
    (buffer_init_entry none 5).is_available = false ∧
    buffer_mark_free (buffer_init (some default) none 5) =
      some { buffer_init_entry none 5 with is_available := true } :=
  init_quirk_mark_free default none 5 (Or.inl rfl)

/-- Claim C8: each pool and context operation, invoked on a NULL or
not-yet-initialized pool or context, returns its neutral failure value
(`none` for pointer-returning, `false` for boolean-returning operations)
and leaves the state unchanged. -/
theorem invalid_ops_no_effect :
    buffer_pool_acquire none = (none, none) ∧
    (∀ q : buffer_pool_st, q.is_initialized = false →
      buffer_pool_acquire (some q) = (none, some q)) ∧
    (∀ m, buffer_pool_find none m = none) ∧
    (∀ (q : buffer_pool_st) (m : Option Nat), q.is_initialized = false →
      buffer_pool_find (some q) m = none) ∧
    (∀ m, buffer_pool_release_by_ptr none m = (false, none)) ∧
    (∀ (q : buffer_pool_st) (m : Option Nat), q.is_initialized = false →
      buffer_pool_release_by_ptr (some q) m = (false, some q)) ∧
    buffer_pool_mark_all_free none = none ∧
    (∀ q : buffer_pool_st, q.is_initialized = false →
      buffer_pool_mark_all_free (some q) = some q) ∧
    buffer_array_acquire none = (none, none) ∧
    (∀ c : buffer_array_ctx_st, c.is_initialized = false →
      buffer_array_acquire (some c) = (none, some c)) ∧
    (∀ m, buffer_array_find_by_ptr none m = none) ∧
    (∀ (c : buffer_array_ctx_st) (m : Option Nat), c.is_initialized = false →
      buffer_array_find_by_ptr (some c) m = none) ∧
    (∀ m, buffer_array_release_by_ptr none m = (false, none)) ∧
    (∀ (c : buffer_array_ctx_st) (m : Option Nat), c.is_initialized = false →
      buffer_array_release_by_ptr (some c) m = (false, some c)) := by
  have hval : ∀ q : buffer_pool_st, q.is_initialized = false →
      buffer_pool_is_valid (some q) = false := by
    intro q h
    simp [buffer_pool_is_valid, h]
  have hfind : ∀ (q : buffer_pool_st) (m : Option Nat), q.is_initialized = false →
      buffer_pool_find (some q) m = none := by
    intro q m h
    cases m with
    | none => rfl
    | some mv => simp [buffer_pool_find, hval q h]
  refine ⟨rfl, ?_, ?_, hfind, ?_, ?_, rfl, ?_, rfl, ?_, ?_, ?_, ?_, ?_⟩
  · intro q h
    exact acquire_of_invalid q (hval q h)
  · intro m
    cases m <;> rfl
  · intro m
    rfl
  · intro q m h
    rw [release_of_find_none (some q) m (hfind q m h)]
  · intro q h
    simp [buffer_pool_mark_all_free, hval q h]
  · intro c h
    simp [buffer_array_acquire, h]
  · intro m
    rfl
  · intro c m h
    simp [buffer_array_find_by_ptr, h]
  · intro m
    rfl
  · intro c m h
    simp [buffer_array_release_by_ptr, h]

/-- Witness for C8 on a concrete uninitialized pool and context. -/
theorem invalid_ops_no_effect_witness :
    buffer_pool_acquire (some ⟨none, 0, false⟩) = (none, some ⟨none, 0, false⟩) ∧
    buffer_pool_release_by_ptr (some ⟨none, 0, false⟩) (some 3) = (false, some ⟨none, 0, false⟩) ∧
    buffer_array_acquire (some ⟨⟨none, 0, false⟩, none, 0, 0, false⟩) =
      (none, some ⟨⟨none, 0, false⟩, none, 0, 0, false⟩) := by
  refine ⟨invalid_ops_no_effect.2.1 _ rfl, ?_, ?_⟩
  · exact invalid_ops_no_effect.2.2.2.2.2.1 ⟨none, 0, false⟩ (some 3) rfl
  · exact invalid_ops_no_effect.2.2.2.2.2.2.2.2.2.1 ⟨⟨none, 0, false⟩, none, 0, 0, false⟩ rfl

/-- Claim C6: `buffer_pool_find` returns `none` exactly on an invalid pool, a
NULL query pointer, or when no initialized scanned descriptor carries the
queried address; on a valid pool it returns the first initialized descriptor
whose backing pointer is address-equal to the query, and its answer does not
depend on the availability flags. -/
theorem find_by_ptr_spec :
    (∀ m, buffer_pool_find none m = none) ∧
    (∀ pool, buffer_pool_find pool none = none) ∧
    (∀ (q : buffer_pool_st) (m : Nat), buffer_pool_is_valid (some q) = false →
      buffer_pool_find (some q) (some m) = none) ∧
    (∀ (q : buffer_pool_st) (l : List buffer_st) (m : Nat),
      q.buffer_array_sa = some l → q.is_initialized = true → 0 < q.buffer_count →
      q.buffer_count ≤ l.length →
      (∀ i, buffer_pool_find (some q) (some m) = some i ↔
        (i < q.buffer_count ∧ matchB m l i = true ∧ ∀ j, j < i → matchB m l j = false)) ∧
      (buffer_pool_find (some q) (some m) = none ↔
        ∀ j, j < q.buffer_count → matchB m l j = false) ∧
      (∀ l2 : List buffer_st, l2.length = l.length →
        (∀ (j : Nat) (b b2 : buffer_st), l[j]? = some b → l2[j]? = some b2 →
          b2.is_initialized = b.is_initialized ∧ b2.data_u8p = b.data_u8p) →
        buffer_pool_find (some { q with buffer_array_sa := some l2 }) (some m) =
          buffer_pool_find (some q) (some m))) := by
  refine ⟨?_, ?_, ?_, ?_⟩
  · intro m
    cases m <;> rfl
  · intro pool
    cases pool <;> rfl
  · intro q m h
    simp [buffer_pool_find, h]
  · intro q l m harr hinit hcnt hlen
    have hv := buffer_pool_is_valid_mk q l harr hinit hcnt
    refine ⟨fun i => find_eq_some_iff q l m i harr hv, find_eq_none_iff q l m harr hv, ?_⟩
    intro l2 hlen2 hsame
    have hv2 : buffer_pool_is_valid (some { q with buffer_array_sa := some l2 }) = true :=
      buffer_pool_is_valid_mk _ l2 rfl hinit hcnt
    simp only [buffer_pool_find, hv, hv2, if_true, harr, buffer_scan_match]
    apply scanFirst_eq_of_predB_eq
    intro j
    rw [predB_take, predB_take]
    by_cases hj : j < q.buffer_count
    · rw [if_pos hj, if_pos hj]
      by_cases hjl : j < l.length
      · have hjl2 : j < l2.length := by omega
        have h1 : l[j]? = some (l.get ⟨j, hjl⟩) := by
          rw [List.getElem?_eq_getElem hjl]
          rfl
        have h2 : l2[j]? = some (l2.get ⟨j, hjl2⟩) := by
          rw [List.getElem?_eq_getElem hjl2]
          rfl
        obtain ⟨hbi, hbd⟩ := hsame j _ _ h1 h2
        rw [predB_of_getElem? _ _ _ _ h2, predB_of_getElem? _ _ _ _ h1]
        unfold entryMatchB
        rw [hbi, hbd]
      · unfold predB
        rw [List.getElem?_eq_none (by omega), List.getElem?_eq_none (by omega)]
    · rw [if_neg hj, if_neg hj]

/-- Witness for C6: on a two-slot pool the free-standing address 20 is found
at slot 1 even though slot 1 is in-use. -/
theorem find_by_ptr_spec_witness :
    buffer_pool_find (some ⟨some [⟨some 10, 4, true, true⟩, ⟨some 20, 4, false, true⟩], 2, true⟩) (some 20) =
      some 1 := by
  have h := ((find_by_ptr_spec.2.2.2
    ⟨some [⟨some 10, 4, true, true⟩, ⟨some 20, 4, false, true⟩], 2, true⟩
    [⟨some 10, 4, true, true⟩, ⟨some 20, 4, false, true⟩] 20
    rfl rfl (by decide) (by decide)).1 1).mpr
    ⟨by decide, by decide, fun j hj => by
      have hj0 : j = 0 := by omega
      subst hj0
      decide⟩
  exact h

/-- Claim C10: when two distinct initialized slots of a valid pool carry the
same backing pointer, `buffer_pool_find` deterministically returns the
lowest matching index. -/
theorem find_duplicate_lowest_index (q : buffer_pool_st) (l : List buffer_st)
    (m : Nat) (i j : Nat) (harr : q.buffer_array_sa = some l)
    (hinit : q.is_initialized = true) (hcnt : 0 < q.buffer_count)
    (hlen : q.buffer_count ≤ l.length) (hij : i ≠ j)
    (hi : i < q.buffer_count) (hj : j < q.buffer_count)
    (hmi : matchB m l i = true) (hmj : matchB m l j = true) :
    ∃ k, buffer_pool_find (some q) (some m) = some k ∧ k ≤ i ∧ k ≤ j ∧
      matchB m l k = true ∧ ∀ t, t < k → matchB m l t = false := by
  have hv := buffer_pool_is_valid_mk q l harr hinit hcnt
  cases hfind : buffer_pool_find (some q) (some m) with
  | none =>
    have := (find_eq_none_iff q l m harr hv).mp hfind i hi
    rw [this] at hmi
    exact absurd hmi (by simp)
  | some k =>
    obtain ⟨hkc, hkm, hklow⟩ := (find_eq_some_iff q l m k harr hv).mp hfind
    have hki : k ≤ i := by
      by_contra hgt
      have := hklow i (by omega)
      rw [this] at hmi
      exact absurd hmi (by simp)
    have hkj : k ≤ j := by
      by_contra hgt
      have := hklow j (by omega)
      rw [this] at hmj
      exact absurd hmj (by simp)
    exact ⟨k, rfl, hki, hkj, hkm, hklow⟩

/-- Witness for C10: two slots share address 7; `find` returns slot 0. -/
theorem find_duplicate_lowest_index_witness :
    ∃ k, buffer_pool_find (some ⟨some [⟨some 7, 4, true, true⟩, ⟨some 7, 4, false, true⟩], 2, true⟩) (some 7) = some k ∧
      k ≤ 0 ∧ k ≤ 1 ∧
      matchB 7 [⟨some 7, 4, true, true⟩, ⟨some 7, 4, false, true⟩] k = true ∧
      ∀ t, t < k → matchB 7 [⟨some 7, 4, true, true⟩, ⟨some 7, 4, false, true⟩] t = false :=
  find_duplicate_lowest_index
    ⟨some [⟨some 7, 4, true, true⟩, ⟨some 7, 4, false, true⟩], 2, true⟩
    [⟨some 7, 4, true, true⟩, ⟨some 7, 4, false, true⟩] 7 0 1
    rfl rfl (by decide) (by decide) (by decide) (by decide) (by decide)
    (by decide) (by decide)

/-- Claim C4: `buffer_pool_release_by_ptr` succeeds exactly when
`buffer_pool_find` matches; on success the matched descriptor is available
afterwards, and a second release of the same pointer succeeds again and
leaves the descriptor available (release is idempotent). -/
theorem release_by_ptr_idempotent :
    (∀ (pool : Option buffer_pool_st) (m : Option Nat),
      ((buffer_pool_release_by_ptr pool m).1 = true ↔
        (buffer_pool_find pool m).isSome = true)) ∧
    (∀ (pool : Option buffer_pool_st) (m : Option Nat) (i : Nat),
      buffer_pool_find pool m = some i →
      availAt (buffer_pool_release_by_ptr pool m).2 i = true ∧
      (buffer_pool_release_by_ptr (buffer_pool_release_by_ptr pool m).2 m).1 = true ∧
      availAt (buffer_pool_release_by_ptr (buffer_pool_release_by_ptr pool m).2 m).2 i = true) := by
  constructor
  · intro pool m
    cases hf : buffer_pool_find pool m with
    | none =>
      rw [release_of_find_none pool m hf]
      simp
    | some k =>
      obtain ⟨q, l, mv, hs, hm, harr, -, -, -, -⟩ := find_some_elim pool m k hf
      subst hs
      rw [release_of_find_some q l m k harr hf]
      simp
  · intro pool m i hf
    obtain ⟨h1, h2, h3⟩ := release_found pool m i hf
    obtain ⟨h1b, h2b, h3b⟩ := release_found _ m i h3
    exact ⟨h2, h1b, h2b⟩

/-- Witness for C4 on a one-slot pool holding address 10, released twice. -/
theorem release_by_ptr_idempotent_witness :
    availAt (buffer_pool_release_by_ptr (some ⟨some [⟨some 10, 4, false, true⟩], 1, true⟩) (some 10)).2 0 = true ∧
    (buffer_pool_release_by_ptr (buffer_pool_release_by_ptr (some ⟨some [⟨some 10, 4, false, true⟩], 1, true⟩) (some 10)).2 (some 10)).1 = true ∧
    availAt (buffer_pool_release_by_ptr (buffer_pool_release_by_ptr (some ⟨some [⟨some 10, 4, false, true⟩], 1, true⟩) (some 10)).2 (some 10)).2 0 = true :=
  release_by_ptr_idempotent.2 (some ⟨some [⟨some 10, 4, false, true⟩], 1, true⟩) (some 10) 0 (by decide)

/-- Claim C2: `buffer_array_ctx_init` with non-NULL context, array and block
and positive count and size initializes descriptor `i` with backing pointer
`block + i * size` and capacity `size` for `i < count` (each initialized and
available), leaves later slots untouched, initializes the internal pool over
the array with `count` elements, and marks the context initialized. -/
theorem ctx_init_geometry (c : buffer_array_ctx_st) (l : List buffer_st)
    (block count size : Nat) (hcount : 0 < count) (hsize : 0 < size)
    (hlen : count ≤ l.length) :
    ∃ c2 : buffer_array_ctx_st,
      buffer_array_ctx_init (some c) (some l) (some block) count size = some c2 ∧
      c2.is_initialized = true ∧
      c2.memory_block_u8p = some block ∧
      c2.buffer_count = count ∧ c2.buffer_size = size ∧
      c2.pool_s.is_initialized = true ∧ c2.pool_s.buffer_count = count ∧
      ∃ l2 : List buffer_st,
        c2.pool_s.buffer_array_sa = some l2 ∧ l2.length = l.length ∧
        (∀ i, i < count →
          l2[i]? = some (buffer_init_entry (some (block + i * size)) size) ∧
          (buffer_init_entry (some (block + i * size)) size).data_u8p = some (block + i * size) ∧
          (buffer_init_entry (some (block + i * size)) size).capacity_bytes = size ∧
          (buffer_init_entry (some (block + i * size)) size).is_initialized = true ∧
          (buffer_init_entry (some (block + i * size)) size).is_available = true) ∧
        (∀ i, count ≤ i → l2[i]? = l[i]?) := by
  have hc0 : ¬(count = 0 ∨ size = 0) := by omega
  refine ⟨⟨⟨some (buffer_init_chunks l block size count), count, true⟩, some block, count, size, true⟩,
    ?_, rfl, rfl, rfl, rfl, rfl, rfl, buffer_init_chunks l block size count, rfl,
    buffer_init_chunks_length l block size count, ?_, ?_⟩
  · show buffer_array_ctx_init (some c) (some l) (some block) count size = _
    simp only [buffer_array_ctx_init]
    rw [if_neg hc0]
  · intro i hi
    refine ⟨?_, rfl, rfl, rfl, ?_⟩
    · rw [buffer_init_chunks_getElem?, if_pos ⟨hi, by omega⟩]
    · simp [buffer_init_entry]
      omega
  · intro i hi
    rw [buffer_init_chunks_getElem?, if_neg (fun hc => by omega)]

/-- Witness for C2 at count 4, chunk size 64, block base 1000: backing
pointers land at offsets 0, 64, 128, 192. -/
theorem ctx_init_geometry_witness :
    ∃ c2 : buffer_array_ctx_st,
      buffer_array_ctx_init (some default) (some [default, default, default, default]) (some 1000) 4 64 = some c2 ∧
      c2.is_initialized = true ∧
      c2.memory_block_u8p = some 1000 ∧
      c2.buffer_count = 4 ∧ c2.buffer_size = 64 ∧
      c2.pool_s.is_initialized = true ∧ c2.pool_s.buffer_count = 4 ∧
      ∃ l2 : List buffer_st,
        c2.pool_s.buffer_array_sa = some l2 ∧
        l2.length = ([default, default, default, default] : List buffer_st).length ∧
        (∀ i, i < 4 →
          l2[i]? = some (buffer_init_entry (some (1000 + i * 64)) 64) ∧
          (buffer_init_entry (some (1000 + i * 64)) 64).data_u8p = some (1000 + i * 64) ∧
          (buffer_init_entry (some (1000 + i * 64)) 64).capacity_bytes = 64 ∧
          (buffer_init_entry (some (1000 + i * 64)) 64).is_initialized = true ∧
          (buffer_init_entry (some (1000 + i * 64)) 64).is_available = true) ∧
        (∀ i, 4 ≤ i → l2[i]? = ([default, default, default, default] : List buffer_st)[i]?) :=
  ctx_init_geometry default [default, default, default, default] 1000 4 64
    (by decide) (by decide) (by decide)

/-- Claim C3: starting from an initialized pool over `N` descriptors that are
all initialized and available, `N` successive `buffer_pool_acquire` calls
return exactly the slot indices `0, …, N − 1` (all successes, pairwise
distinct), and the next call returns `none`. -/
theorem acquire_exhaustion (l : List buffer_st) (N : Nat) (hN : N = l.length)
    (hall : ∀ (j : Nat) (b : buffer_st), l[j]? = some b →
      b.is_initialized = true ∧ b.is_available = true) :
    (acquireSeq (some ⟨some l, N, true⟩) N).1 = (List.range N).map some ∧
    ((acquireSeq (some ⟨some l, N, true⟩) N).1).Nodup ∧
    (∀ r ∈ (acquireSeq (some ⟨some l, N, true⟩) N).1, r.isSome = true) ∧
    (buffer_pool_acquire (acquireSeq (some ⟨some l, N, true⟩) N).2).1 = none := by
  subst hN
  have hall0 : allFreeFrom l 0 := by
    intro j b hjb
    obtain ⟨hb1, hb2⟩ := hall j b hjb
    exact ⟨hb1, by rw [hb2]; simp⟩
  obtain ⟨l3, hl3, hall3, hseq⟩ :=
    acquireSeq_allFreeFrom l l.length 0 l rfl hall0 (by omega)
  rw [Nat.zero_add] at hall3
  refine ⟨?_, ?_, ?_, ?_⟩
  · rw [hseq, List.range_eq_range']
  · rw [hseq]
    exact List.Nodup.map (Option.some_injective Nat)
      (by rw [← List.range_eq_range']; exact List.nodup_range _)
  · rw [hseq]
    intro r hr
    obtain ⟨a, -, ha⟩ := List.mem_map.mp hr
    rw [← ha]
    rfl
  · rw [hseq]
    by_cases hN0 : l.length = 0
    · have hv : buffer_pool_is_valid (some (⟨some l3, l.length, true⟩ : buffer_pool_st)) = false := by
        simp [buffer_pool_is_valid, hN0]
      rw [acquire_of_invalid _ hv]
    · have hv := buffer_pool_is_valid_mk ⟨some l3, l.length, true⟩ l3 rfl rfl
        (by show 0 < l.length; omega)
      have hscan : scanFirst entryFreeB (l3.take l.length) = none := by
        rw [scanFirst_eq_none]
        intro j
        rw [predB_take]
        by_cases hj : j < l.length
        · rw [if_pos hj]
          have hjl3 : j < l3.length := by omega
          obtain ⟨hb1, hb2⟩ := hall3 j (l3.get ⟨j, hjl3⟩)
            (by rw [List.getElem?_eq_getElem hjl3]; rfl)
          rw [predB_of_getElem? _ _ _ _ (List.getElem?_eq_getElem hjl3)]
          unfold entryFreeB
          rw [show l3[j] = l3.get ⟨j, hjl3⟩ from rfl, hb1, hb2]
          simp
          omega
        · rw [if_neg hj]
      rw [acquire_of_scan_none _ l3 hv rfl hscan]

/-- Witness for C3 on a two-slot pool: the two acquires return slots 0 and 1
and the third returns `none`. -/
theorem acquire_exhaustion_witness :
    (acquireSeq (some ⟨some [⟨some 5, 8, true, true⟩, ⟨some 9, 8, true, true⟩], 2, true⟩) 2).1 =
      (List.range 2).map some ∧
    ((acquireSeq (some ⟨some [⟨some 5, 8, true, true⟩, ⟨some 9, 8, true, true⟩], 2, true⟩) 2).1).Nodup ∧
    (∀ r ∈ (acquireSeq (some ⟨some [⟨some 5, 8, true, true⟩, ⟨some 9, 8, true, true⟩], 2, true⟩) 2).1,
      r.isSome = true) ∧
    (buffer_pool_acquire (acquireSeq (some ⟨some [⟨some 5, 8, true, true⟩, ⟨some 9, 8, true, true⟩], 2, true⟩) 2).2).1 = none :=
  acquire_exhaustion [⟨some 5, 8, true, true⟩, ⟨some 9, 8, true, true⟩] 2 rfl
    (fun j b hjb => by
      have hj : j < 2 := (List.getElem?_eq_some_iff.mp hjb).1
      interval_cases j <;> simp_all <;> exact ⟨hjb ▸ rfl, hjb ▸ rfl⟩)

/-- Claim C5: in any sequence of pool operations, once `buffer_pool_acquire`
has returned slot `i`, a later `buffer_pool_acquire` can return slot `i`
again only if some operation in between freed it: a `mark_all_free`, a
`mark_free` on that slot, or a `release_by_ptr` that finds that slot (i.e.
one on its backing pointer). -/
theorem no_double_acquire_without_free (s0 : Option buffer_pool_st)
    (pre mid : List PoolOp) (i : Nat)
    (h1 : (buffer_pool_acquire (execOps s0 pre)).1 = some i)
    (h2 : (buffer_pool_acquire
      (execOps (buffer_pool_acquire (execOps s0 pre)).2 mid)).1 = some i) :
    ∃ (m1 : List PoolOp) (op : PoolOp) (m2 : List PoolOp),
      mid = m1 ++ op :: m2 ∧
      freesIdx (execOps (buffer_pool_acquire (execOps s0 pre)).2 m1) op i = true := by
  have hun : availAt (buffer_pool_acquire (execOps s0 pre)).2 i = false := by
    obtain ⟨q, l, hs, harr, -, -, hlen, -, -, hsnd⟩ :=
      acquire_some_elim (execOps s0 pre) i h1
    rw [hsnd]
    rw [availAt_some_arr _ (l.set i { l.getD i default with is_available := false }) i rfl]
    rw [predB_set_self _ _ _ _ hlen]
  exact frees_of_acquire_unavail i mid (buffer_pool_acquire (execOps s0 pre)).2 hun h2

/-- Witness for C5: a one-slot pool, acquired, freed by `markFree 0`, and
acquired again; the decomposition exhibits the freeing operation. -/
theorem no_double_acquire_without_free_witness :
    ∃ (m1 : List PoolOp) (op : PoolOp) (m2 : List PoolOp),
      [PoolOp.markFree 0] = m1 ++ op :: m2 ∧
      freesIdx (execOps (buffer_pool_acquire
        (execOps (some ⟨some [⟨some 5, 8, true, true⟩], 1, true⟩) [])).2 m1) op 0 = true :=
  no_double_acquire_without_free (some ⟨some [⟨some 5, 8, true, true⟩], 1, true⟩)
    [] [PoolOp.markFree 0] 0 (by decide) (by decide)

/-- Claim C9: after initialization only the availability flag of a descriptor
is ever mutated: the descriptor-level mark operations and the pool- and
context-level operations all preserve every descriptor's backing pointer,
capacity and initialized flag. -/
theorem only_availability_mutates :
    (∀ b : buffer_st,
      (buffer_entry_mark_free b).data_u8p = b.data_u8p ∧
      (buffer_entry_mark_free b).capacity_bytes = b.capacity_bytes ∧
      (buffer_entry_mark_free b).is_initialized = b.is_initialized ∧
      (buffer_entry_mark_in_use b).data_u8p = b.data_u8p ∧
      (buffer_entry_mark_in_use b).capacity_bytes = b.capacity_bytes ∧
      (buffer_entry_mark_in_use b).is_initialized = b.is_initialized) ∧
    (∀ (s : Option buffer_pool_st) (m : Option Nat) (j : Nat),
      entryShape (buffer_pool_acquire s).2 j = entryShape s j ∧
      entryShape (buffer_pool_release_by_ptr s m).2 j = entryShape s j ∧
      entryShape (buffer_pool_mark_all_free s) j = entryShape s j) ∧
    (∀ (c : Option buffer_array_ctx_st) (m : Option Nat) (j : Nat),
      ctxEntryShape (buffer_array_acquire c).2 j = ctxEntryShape c j ∧
      ctxEntryShape (buffer_array_release_by_ptr c m).2 j = ctxEntryShape c j) := by
  refine ⟨?_, ?_, ?_⟩
  · intro b
    exact ⟨buffer_entry_mark_free_data b, buffer_entry_mark_free_capacity b,
      buffer_entry_mark_free_keeps_init b, buffer_entry_mark_in_use_data b,
      buffer_entry_mark_in_use_capacity b, buffer_entry_mark_in_use_keeps_init b⟩
  · intro s m j
    exact ⟨entryShape_acquire s j, entryShape_release s m j, entryShape_markall s j⟩
  · intro c m j
    constructor
    · cases c with
      | none => rfl
      | some x =>
        by_cases hin : x.is_initialized = true
        · rcases hacq : buffer_pool_acquire (some x.pool_s) with ⟨r, p2⟩
          have hsh := entryShape_acquire (some x.pool_s) j
          rw [hacq] at hsh
          cases p2 with
          | none => simp [buffer_array_acquire, hin, hacq]
          | some q2 =>
            simp only [buffer_array_acquire, hin, if_true, hacq]
            show entryShape (some q2) j = entryShape (some x.pool_s) j
            exact hsh
        · simp [buffer_array_acquire, hin]
    · cases c with
      | none => rfl
      | some x =>
        by_cases hin : x.is_initialized = true
        · rcases hrel : buffer_pool_release_by_ptr (some x.pool_s) m with ⟨r, p2⟩
          have hsh := entryShape_release (some x.pool_s) m j
          rw [hrel] at hsh
          cases p2 with
          | none => simp [buffer_array_release_by_ptr, hin, hrel]
          | some q2 =>
            simp only [buffer_array_release_by_ptr, hin, if_true, hrel]
            show entryShape (some q2) j = entryShape (some x.pool_s) j
            exact hsh
        · simp [buffer_array_release_by_ptr, hin]
